import Mathlib

/-!
Verification of the eBay scraper core (streamlit_scraper.py) against its
natural-language specification.

Shallow embedding conventions:
* Python strings are `List Char`; Python's `in` (substring test) is `isSub`,
  `str.startswith` is `List.isPrefixOf`, `str.endswith` is `endsWith`,
  `str.replace` is `pyReplace`, `str.strip` is `pyStrip`,
  `str.split(sep, 1)` / `str.split(sep)` are `splitFirst` / `List.splitOn`.
* Python floats are modelled as exact rationals `ℚ`; `round(x, 1)` is
  modelled as round-half-to-even on the exact value (`pyRound1`), which is
  Python's documented rounding mode; `str` of a one-decimal float is
  `tenthStr`.
* `re.search(r'[\d,.]+', s)` is `firstNumRun` (leftmost maximal run of
  digits, commas and periods); `float(s)` on such a run (commas removed) is
  `parsePyFloat`, returning `none` exactly when Python raises `ValueError`.
* BeautifulSoup DOM queries are abstracted by records (`Container`, `Page`)
  holding the text/attribute values that the selectors would return.
* Side effects that carry no data relevant to any claim (wall-clock
  timestamps on log lines, random jitter amounts, progress-bar updates,
  `st.error` calls) are elided; status-log messages are modelled by the
  inductive type `Msg`, one constructor per `add_status_update` call site.
-/

/-! ## String utilities (Python string operations on `List Char`) -/

/-- Python substring test `needle in haystack` (true for the empty needle). -/
def isSub (p : List Char) : List Char → Bool
  | [] => p.isPrefixOf []
  | c :: rest => p.isPrefixOf (c :: rest) || isSub p rest

/-- Python `str.strip()` restricted to ASCII whitespace. -/
def pyStrip (cs : List Char) : List Char :=
  ((cs.dropWhile Char.isWhitespace).reverse.dropWhile Char.isWhitespace).reverse

/-- Python `str.endswith(pat)`. -/
def endsWith (pat s : List Char) : Bool :=
  pat.reverse.isPrefixOf s.reverse

/-- Python `str.replace(pat, rep)`: left-to-right, non-overlapping, the
replacement text is not rescanned.  (All call sites use a non-empty `pat`;
for an empty `pat` this copies the string.) -/
def pyReplaceAux (pat rep : List Char) : Nat → List Char → List Char
  | 0, s => s
  | _ + 1, [] => []
  | fuel + 1, c :: rest =>
    if pat ≠ [] ∧ pat.isPrefixOf (c :: rest) = true then
      rep ++ pyReplaceAux pat rep fuel ((c :: rest).drop pat.length)
    else
      c :: pyReplaceAux pat rep fuel rest

/-- Python `str.replace(pat, rep)` (see `pyReplaceAux`; the fuel
`s.length` is enough since every step consumes at least one character). -/
def pyReplace (pat rep s : List Char) : List Char :=
  pyReplaceAux pat rep s.length s

/-- Python `s.split(sep, 1)` under a guard that `sep` occurs: the text
before the first occurrence of `sep` and the text after it. -/
def splitFirst (sep : List Char) : List Char → List Char × List Char
  | [] => ([], [])
  | c :: rest =>
    if sep ≠ [] ∧ sep.isPrefixOf (c :: rest) = true then
      ([], (c :: rest).drop sep.length)
    else
      let r := splitFirst sep rest
      (c :: r.1, r.2)

/-! ### Lemmas about the string utilities -/

theorem isPrefixOf_length {p s : List Char} (h : p.isPrefixOf s = true) :
    p.length ≤ s.length := by
  induction p generalizing s with
  | nil => simp
  | cons a p ih =>
    cases s with
    | nil => simp [List.isPrefixOf] at h
    | cons b s =>
      simp only [List.isPrefixOf, Bool.and_eq_true] at h
      simpa using ih h.2

theorem isPrefixOf_append (p t : List Char) : p.isPrefixOf (p ++ t) = true := by
  induction p with
  | nil => simp [List.isPrefixOf]
  | cons a p ih => simp [List.isPrefixOf, ih]

theorem isPrefixOf_extend {p s : List Char} (t : List Char)
    (h : p.isPrefixOf s = true) : p.isPrefixOf (s ++ t) = true := by
  induction p generalizing s with
  | nil => simp [List.isPrefixOf]
  | cons a p ih =>
    cases s with
    | nil => simp [List.isPrefixOf] at h
    | cons b s =>
      simp only [List.isPrefixOf, Bool.and_eq_true] at h ⊢
      exact ⟨h.1, ih h.2⟩

theorem isSub_of_isPrefixOf {p s : List Char} (h : p.isPrefixOf s = true) :
    isSub p s = true := by
  cases s with
  | nil => simpa [isSub] using h
  | cons c rest => simp [isSub, h]

theorem isSub_append_right {p t : List Char} (s : List Char)
    (h : isSub p t = true) : isSub p (s ++ t) = true := by
  induction s with
  | nil => simpa
  | cons c s ih => simp [isSub, ih]

theorem isSub_append_left {p s : List Char} (t : List Char)
    (h : isSub p s = true) : isSub p (s ++ t) = true := by
  induction s with
  | nil =>
    have hp : p = [] := by
      cases p with
      | nil => rfl
      | cons a q => simp [isSub, List.isPrefixOf] at h
    subst hp
    exact isSub_of_isPrefixOf (by simp [List.isPrefixOf])
  | cons c s ih =>
    simp only [isSub, Bool.or_eq_true] at h
    rcases h with h | h
    · simpa [isSub] using Or.inl (isPrefixOf_extend t h)
    · simpa [isSub] using Or.inr (ih h)

theorem mem_of_isPrefixOf {p s : List Char} (h : p.isPrefixOf s = true)
    {c : Char} (hc : c ∈ p) : c ∈ s := by
  induction p generalizing s with
  | nil => simp at hc
  | cons a p ih =>
    cases s with
    | nil => simp [List.isPrefixOf] at h
    | cons b s =>
      simp only [List.isPrefixOf, Bool.and_eq_true, beq_iff_eq] at h
      rcases List.mem_cons.mp hc with rfl | hc
      · simp [h.1]
      · exact List.mem_cons_of_mem _ (ih h.2 hc)

theorem mem_of_isSub {p s : List Char} (h : isSub p s = true)
    {c : Char} (hc : c ∈ p) : c ∈ s := by
  induction s with
  | nil =>
    cases p with
    | nil => simp at hc
    | cons a q => simp [isSub, List.isPrefixOf] at h
  | cons b s ih =>
    simp only [isSub, Bool.or_eq_true] at h
    rcases h with h | h
    · exact mem_of_isPrefixOf h hc
    · exact List.mem_cons_of_mem _ (ih h)

theorem isSub_eq_false_of_missing {p s : List Char} {c : Char}
    (hc : c ∈ p) (hs : c ∉ s) : isSub p s = false := by
  cases h : isSub p s
  · rfl
  · exact absurd (mem_of_isSub h hc) hs

/-! ## Numeric model (Python float text handling on exact rationals) -/

/-- Character class of the regex `[\d,.]`. -/
def numChar (c : Char) : Bool := c.isDigit || c == ',' || c == '.'

/-- Model of `re.search(r'[\d,.]+', s)`: the leftmost maximal run of
digits, commas and periods, or `none` when the regex does not match. -/
def firstNumRun : List Char → Option (List Char)
  | [] => none
  | c :: rest =>
    if numChar c then some (c :: rest.takeWhile numChar) else firstNumRun rest

/-- Model of `s.replace(',', '')` on a numeric run. -/
def stripCommas (cs : List Char) : List Char := cs.filter (fun c => !(c == ','))

/-- Value of a digit string read in base 10 (empty string reads as 0,
matching its use for the empty integer or fractional part of a float
literal such as `".5"` or `"10."`). -/
def natOfDigits (cs : List Char) : Nat :=
  cs.foldl (fun n c => 10 * n + (c.toNat - 48)) 0

/-- Model of Python `float(s)` for strings made of digits and periods
(the only shapes reaching it in this program: a `[\d,.]+` run with the
commas removed).  Returns `none` exactly when Python raises `ValueError`:
the empty string, a bare `"."`, or more than one period. -/
def parsePyFloat (cs : List Char) : Option ℚ :=
  if cs.isEmpty then none
  else if !cs.all (fun c => c.isDigit || c == '.') then none
  else
    match cs.splitOn '.' with
    | [ip] => some ((natOfDigits ip : ℚ))
    | [ip, fp] =>
      if ip.isEmpty && fp.isEmpty then none
      else some ((natOfDigits ip : ℚ) + (natOfDigits fp : ℚ) / (10 : ℚ) ^ fp.length)
    | _ => none

/-- The numeric amount `convert_to_usd` extracts from a price text:
first `[\d,.]+` run, commas stripped, parsed as a float. -/
def parseAmount (p : List Char) : Option ℚ :=
  match firstNumRun p with
  | none => none
  | some run => parsePyFloat (stripCommas run)

/-- Round-half-to-even to the nearest integer (Python's rounding mode for
`round`), on exact rationals.  `Rat.floor` is used rather than the `⌊·⌋`
notation so that the definition evaluates inside the kernel. -/
def rhe (x : ℚ) : ℤ :=
  if x - Rat.floor x < 1 / 2 then Rat.floor x
  else if 1 / 2 < x - Rat.floor x then Rat.floor x + 1
  else if Rat.floor x % 2 = 0 then Rat.floor x else Rat.floor x + 1

/-- Model of Python `round(x, 1)`, returned as an integer count of tenths. -/
def pyRound1 (x : ℚ) : ℤ := rhe (10 * x)

/-- Decimal digit character for a value reduced mod 10. -/
def digitChar (d : Nat) : Char :=
  match d % 10 with
  | 0 => '0' | 1 => '1' | 2 => '2' | 3 => '3' | 4 => '4'
  | 5 => '5' | 6 => '6' | 7 => '7' | 8 => '8' | _ => '9'

/-- Base-10 digit string of a natural number, with explicit fuel so that
the definition is structurally recursive (the fuel never runs out at the
wrapper's `n + 1`, since `n / 10 < n` for `n ≥ 10`). -/
def natDigitsAux : Nat → Nat → List Char
  | 0, _ => []
  | fuel + 1, n =>
    if n < 10 then [digitChar n]
    else natDigitsAux fuel (n / 10) ++ [digitChar (n % 10)]

/-- Base-10 digit string of a natural number. -/
def natDigits (n : Nat) : List Char := natDigitsAux (n + 1) n

/-- Model of Python `str(x)` for a float holding an exact number of tenths
(the result of `round(_, 1)`); `t` is the value in tenths. -/
def tenthStr (t : ℤ) : List Char :=
  (if t < 0 then ['-'] else []) ++
    natDigits (t.natAbs / 10) ++ ['.'] ++ [digitChar (t.natAbs % 10)]

/-! ## Exchange-rate table and convert_to_usd

Source: `EbayScraper.EXCHANGE_RATES` and `EbayScraper.convert_to_usd`.
The symbol strings are embedded byte-for-byte as the Python source file
holds them: the pound, euro, yen, won and rupee entries are mojibake
(UTF-8 bytes decoded as Latin-1), e.g. the pound entry is the two-character
string U+00C2 U+00A3. -/

/-- Table key `"NT$"` (New Taiwan Dollar). -/
def ntSym : List Char := [Char.ofNat 0x4E, Char.ofNat 0x54, Char.ofNat 0x24]

/-- Table key `"HK$"` (Hong Kong Dollar). -/
def hkSym : List Char := [Char.ofNat 0x48, Char.ofNat 0x4B, Char.ofNat 0x24]

/-- Table key for the British Pound: mojibake U+00C2 U+00A3. -/
def poundSym : List Char := [Char.ofNat 0xC2, Char.ofNat 0xA3]

/-- Table key for the Euro: mojibake U+00E2 U+201A U+00AC. -/
def euroSym : List Char := [Char.ofNat 0xE2, Char.ofNat 0x201A, Char.ofNat 0xAC]

/-- Table key `"C$"` (Canadian Dollar). -/
def cadSym : List Char := [Char.ofNat 0x43, Char.ofNat 0x24]

/-- Table key `"A$"` (Australian Dollar). -/
def audSym : List Char := [Char.ofNat 0x41, Char.ofNat 0x24]

/-- Table key for the Japanese Yen: mojibake U+00C2 U+00A5. -/
def yenSym : List Char := [Char.ofNat 0xC2, Char.ofNat 0xA5]

/-- Table key for the Korean Won: mojibake U+00E2 U+201A U+00A9. -/
def wonSym : List Char := [Char.ofNat 0xE2, Char.ofNat 0x201A, Char.ofNat 0xA9]

/-- Table key for the Indian Rupee: mojibake U+00E2 U+201A U+00B9. -/
def inrSym : List Char := [Char.ofNat 0xE2, Char.ofNat 0x201A, Char.ofNat 0xB9]

/-- The `EXCHANGE_RATES` dictionary, as an ordered association list
(Python dicts iterate in insertion order). -/
def EXCHANGE_RATES : List (List Char × ℚ) :=
  [(ntSym, 32906 / 1000), (hkSym, 78 / 10), (poundSym, 77 / 100),
   (euroSym, 91 / 100), (cadSym, 135 / 100), (audSym, 15 / 10),
   (yenSym, 149), (wonSym, 1350), (inrSym, 83)]

/-- The canonical-currency output frame `"US $"`. -/
def usdMark : List Char := [Char.ofNat 0x55, Char.ofNat 0x53, Char.ofNat 0x20, Char.ofNat 0x24]

/-- Formatting of the f-string `f"US ${usd_amount}"` for a one-decimal
float worth `t` tenths. -/
def usdOfTenths (t : ℤ) : List Char := usdMark ++ tenthStr t

/-- Loop body of `convert_to_usd`: scan the rate table in order; on the
first symbol contained in the text, extract and parse the numeric run and
return the formatted quotient; when the parse fails (Python catches the
`ValueError` and shows an `st.error`) or no numeric run exists, the `for`
loop continues with the next symbol. -/
def convertGo : List (List Char × ℚ) → List Char → List Char
  | [], p => p
  | (sym, rate) :: rest, p =>
    if isSub sym p then
      match parseAmount p with
      | some amount =>
        if sym = poundSym ∨ sym = euroSym then
          usdOfTenths (pyRound1 (amount / rate))
        else
          usdOfTenths (pyRound1 (amount / rate))
      | none => convertGo rest p
    else convertGo rest p

/-- Model of `EbayScraper.convert_to_usd`. -/
def convert_to_usd (p : List Char) : List Char := convertGo EXCHANGE_RATES p

/-- Variant of the loop body with the redundant pound/euro conditional
removed: a single uniform division for every matched symbol.  Used by the
refinement claim comparing it with `convertGo`. -/
def convertGoUniform : List (List Char × ℚ) → List Char → List Char
  | [], p => p
  | (sym, rate) :: rest, p =>
    if isSub sym p then
      match parseAmount p with
      | some amount => usdOfTenths (pyRound1 (amount / rate))
      | none => convertGoUniform rest p
    else convertGoUniform rest p

/-- The uniform-division variant of `convert_to_usd`. -/
def convert_to_usd_uniform (p : List Char) : List Char :=
  convertGoUniform EXCHANGE_RATES p

/-! ### Lemmas about rounding and digit strings -/

theorem ratFloor_eq_floor (q : ℚ) : Rat.floor q = ⌊q⌋ :=
  le_antisymm (Int.le_floor.mpr (Rat.le_floor.mp le_rfl)) (Rat.le_floor.mpr (Int.floor_le q))

/-- The rounded value is within half a unit of the input. -/
theorem rhe_dist (x : ℚ) : |x - rhe x| ≤ 1 / 2 := by
  unfold rhe
  rw [ratFloor_eq_floor]
  have h0 : (0 : ℚ) ≤ x - ⌊x⌋ := by
    have := Int.floor_le x
    linarith
  have h1 : x - ⌊x⌋ < 1 := by
    have := Int.lt_floor_add_one x
    linarith
  split_ifs with hlt hgt hev
  · rw [abs_of_nonneg h0]
    linarith
  · rw [abs_of_nonpos (by push_cast; linarith)]
    push_cast
    linarith
  · rw [abs_of_nonneg h0]
    linarith
  · rw [abs_of_nonpos (by push_cast; linarith)]
    push_cast
    linarith

/-- At an exact tie the rounded value is the even neighbour. -/
theorem rhe_even_of_tie (x : ℚ) (h : |x - rhe x| = 1 / 2) : rhe x % 2 = 0 := by
  unfold rhe at h ⊢
  rw [ratFloor_eq_floor] at h ⊢
  have h0 : (0 : ℚ) ≤ x - ⌊x⌋ := by
    have := Int.floor_le x
    linarith
  have h1 : x - ⌊x⌋ < 1 := by
    have := Int.lt_floor_add_one x
    linarith
  split_ifs at h ⊢ with hlt hgt hev
  · rw [abs_of_nonneg h0] at h
    exact absurd h (by linarith)
  · rw [abs_of_nonpos (by push_cast; linarith)] at h
    push_cast at h
    exact absurd h (by intro hh; linarith)
  · exact hev
  · omega

theorem digitChar_isDigit (d : Nat) : (digitChar d).isDigit = true := by
  unfold digitChar
  have h : d % 10 < 10 := Nat.mod_lt _ (by omega)
  set m := d % 10 with hm
  interval_cases m <;> rfl

theorem natDigitsAux_digits (fuel : Nat) :
    ∀ n c, c ∈ natDigitsAux fuel n → c.isDigit = true := by
  induction fuel with
  | zero =>
    intro n c hc
    simp [natDigitsAux] at hc
  | succ f ih =>
    intro n c hc
    rw [natDigitsAux] at hc
    by_cases h : n < 10
    · rw [if_pos h] at hc
      rcases List.mem_singleton.mp hc with rfl
      exact digitChar_isDigit n
    · rw [if_neg h] at hc
      rcases List.mem_append.mp hc with hc | hc
      · exact ih (n / 10) c hc
      · rcases List.mem_singleton.mp hc with rfl
        exact digitChar_isDigit (n % 10)

theorem natDigits_digits {n : Nat} {c : Char} (hc : c ∈ natDigits n) :
    c.isDigit = true :=
  natDigitsAux_digits (n + 1) n c hc

/-- Alphabet of the canonical output `"US $<tenths>"`: every character is
a decimal digit or one of `U`, `S`, space, `$`, `.`, `-`. -/
theorem mem_usdOfTenths {t : ℤ} {c : Char} (hc : c ∈ usdOfTenths t) :
    c.isDigit = true ∨ c ∈ (['U', 'S', ' ', '$', '.', '-'] : List Char) := by
  unfold usdOfTenths usdMark tenthStr at hc
  simp only [List.append_assoc, List.mem_append] at hc
  rcases hc with hc | hc | hc | hc | hc
  · simp only [List.mem_cons, List.not_mem_nil, or_false] at hc
    rcases hc with rfl | rfl | rfl | rfl <;> decide
  · split_ifs at hc
    · rcases List.mem_singleton.mp hc with rfl
      decide
    · simp at hc
  · exact Or.inl (natDigits_digits hc)
  · rcases List.mem_singleton.mp hc with rfl
    decide
  · rcases List.mem_singleton.mp hc with rfl
    exact Or.inl (digitChar_isDigit _)

/-- No key of the exchange-rate table occurs in a canonical output
string: each key holds a letter (or a mojibake byte) that the output
alphabet excludes. -/
theorem no_sym_in_usdOfTenths :
    ∀ sr ∈ EXCHANGE_RATES, ∀ t : ℤ, isSub sr.1 (usdOfTenths t) = false := by
  have key : ∀ (x : Char) (sym : List Char), x ∈ sym → x.isDigit = false →
      x ∉ (['U', 'S', ' ', '$', '.', '-'] : List Char) →
      ∀ t : ℤ, isSub sym (usdOfTenths t) = false := by
    intro x sym hx hdig hmem t
    refine isSub_eq_false_of_missing hx ?_
    intro hc
    rcases mem_usdOfTenths hc with h | h
    · rw [hdig] at h
      exact Bool.false_ne_true h
    · exact hmem h
  intro sr hsr t
  simp only [EXCHANGE_RATES, List.mem_cons, List.mem_singleton] at hsr
  rcases hsr with rfl | rfl | rfl | rfl | rfl | rfl | rfl | rfl | rfl | h
  · exact key (Char.ofNat 0x4E) _ (by decide) (by decide) (by decide) t
  · exact key (Char.ofNat 0x48) _ (by decide) (by decide) (by decide) t
  · exact key (Char.ofNat 0xC2) _ (by decide) (by decide) (by decide) t
  · exact key (Char.ofNat 0xE2) _ (by decide) (by decide) (by decide) t
  · exact key (Char.ofNat 0x43) _ (by decide) (by decide) (by decide) t
  · exact key (Char.ofNat 0x41) _ (by decide) (by decide) (by decide) t
  · exact key (Char.ofNat 0xC2) _ (by decide) (by decide) (by decide) t
  · exact key (Char.ofNat 0xE2) _ (by decide) (by decide) (by decide) t
  · exact key (Char.ofNat 0xE2) _ (by decide) (by decide) (by decide) t
  · simp at h

/-! ### Structural lemmas about convert_to_usd -/

/-- The rate of the first table entry whose symbol occurs in the text. -/
def firstRate : List (List Char × ℚ) → List Char → Option ℚ
  | [], _ => none
  | (sym, rate) :: rest, p =>
    if isSub sym p then some rate else firstRate rest p

theorem convertGo_of_amount {rs : List (List Char × ℚ)} {p : List Char}
    {a : ℚ} (ha : parseAmount p = some a) :
    convertGo rs p =
      match firstRate rs p with
      | none => p
      | some r => usdOfTenths (pyRound1 (a / r)) := by
  induction rs with
  | nil => rfl
  | cons sr rest ih =>
    obtain ⟨sym, rate⟩ := sr
    by_cases h : isSub sym p
    · simp [convertGo, firstRate, h, ha, ite_self]
    · simp only [convertGo, firstRate, h, Bool.false_eq_true, if_false]
      exact ih

theorem convertGo_of_no_amount {rs : List (List Char × ℚ)} {p : List Char}
    (ha : parseAmount p = none) : convertGo rs p = p := by
  induction rs with
  | nil => rfl
  | cons sr rest ih =>
    obtain ⟨sym, rate⟩ := sr
    by_cases h : isSub sym p <;> simp [convertGo, h, ha, ih]

theorem convertGo_of_no_sym {rs : List (List Char × ℚ)} {p : List Char}
    (h : ∀ sr ∈ rs, isSub sr.1 p = false) : convertGo rs p = p := by
  induction rs with
  | nil => rfl
  | cons sr rest ih =>
    obtain ⟨sym, rate⟩ := sr
    have h1 := h (sym, rate) (List.mem_cons_self _ _)
    simp only [convertGo, h1, Bool.false_eq_true, if_false]
    exact ih fun x hx => h x (List.mem_cons_of_mem _ hx)

/-- Every run of the conversion loop either returns its input unchanged
or returns a formatted canonical amount. -/
theorem convertGo_cases (rs : List (List Char × ℚ)) (p : List Char) :
    convertGo rs p = p ∨ ∃ t : ℤ, convertGo rs p = usdOfTenths t := by
  induction rs with
  | nil => exact Or.inl rfl
  | cons sr rest ih =>
    obtain ⟨sym, rate⟩ := sr
    by_cases h : isSub sym p
    · cases ha : parseAmount p with
      | none => simpa [convertGo, h, ha] using ih
      | some a =>
        refine Or.inr ⟨pyRound1 (a / rate), ?_⟩
        simp [convertGo, h, ha, ite_self]
    · simpa [convertGo, h] using ih

/-! ## Listing extractor

Source: `EbayScraper.parse_product_listings`.  A `Container` records, for
one `li.s-item` element, the values the BeautifulSoup queries would
return: the raw text of the title and price elements, the `href`
attribute of the product link, the `data-src`/`src` attributes of the
main image element, the `src` of an image nested in a
`picture.s-item__image-img` wrapper, and the `src` attributes of all
`img` tags inside the container (tags without a `src` are skipped by the
code and are therefore not listed). -/

/-- Sentinel `"No Title"`. -/
def noTitleStr : List Char := ("No Title").data

/-- Sentinel `"No Price"`. -/
def noPriceStr : List Char := ("No Price").data

/-- Placeholder marker `"Shop on eBay"`. -/
def shopStr : List Char := ("Shop on eBay").data

/-- Range separator `" to "`. -/
def toSep : List Char := (" to ").data

/-- Per-unit delimiter `"/"`. -/
def slashStr : List Char := ("/").data

/-- Spaced NT variant `"NT $"`. -/
def ntSpace : List Char := ("NT $").data

/-- Lower-case NT variant `"nt$"`. -/
def ntLower : List Char := ("nt$").data

/-- Bare `"NT"`. -/
def ntBare : List Char := ("NT").data

/-- Doubled marker `"NT$$"` produced by the bare-NT replacement. -/
def ntDouble : List Char := ("NT$$").data

/-- Generic dollar sign `"$"`. -/
def dollarStr : List Char := ("$").data

/-- The string `"US "` prepended to a bare-dollar price. -/
def usStr : List Char := ("US ").data

/-- Placeholder image format suffix `"gif"`. -/
def gifStr : List Char := ("gif").data

/-- Secure scheme marker `"https://"`. -/
def httpsStr : List Char := ("https://").data

/-- The main image element of a container: its `data-src` and `src`
attributes, when present. -/
structure ImgElem where
  dataSrc : Option (List Char)
  src : Option (List Char)
deriving DecidableEq, Repr

/-- One `li.s-item` container, abstracted to the values its selectors
yield. -/
structure Container where
  title_elem : Option (List Char)
  price_elem : Option (List Char)
  link_href : Option (List Char)
  image_elem : Option ImgElem
  picture_img_src : Option (List Char)
  imgs : List (List Char)
deriving DecidableEq, Repr

/-- One extracted product record. -/
structure Product where
  title : List Char
  price : List Char
  product_url : List Char
  image_url : Option (List Char)
deriving DecidableEq, Repr

/-- The `"Shop on eBay"` skip: `if title_elem and "Shop on eBay" in
title_elem.text: continue` (tested on the raw, unstripped text). -/
def shopFilter (c : Container) : Bool :=
  match c.title_elem with
  | some t => isSub shopStr t
  | none => false

/-- Title extraction: `title_elem.text.strip() if title_elem else "No Title"`. -/
def titleOf (c : Container) : List Char :=
  match c.title_elem with
  | some t => pyStrip t
  | none => noTitleStr

/-- Range trimming: `price.split(" to ")[0] if " to " in price else price`. -/
def rangeTrim (p : List Char) : List Char :=
  if isSub toSep p then (splitFirst toSep p).1 else p

/-- Per-unit trimming: `price.split("/")[0] if "/" in price else price`. -/
def unitTrim (p : List Char) : List Char :=
  if isSub slashStr p then (splitFirst slashStr p).1 else p

/-- The enhanced-NT$-detection block: coalesce `"NT $"`, `"nt$"` and bare
`"NT"` variants to `"NT$"`. -/
def ntNormalize (p : List Char) : List Char :=
  if !isSub ntSym p && (isSub ntSpace p || isSub ntLower p || isSub ntBare p) then
    let p1 := pyReplace ntLower ntSym (pyReplace ntSpace ntSym p)
    if isSub ntBare p1 && isSub dollarStr p1 && !isSub ntSym p1 then
      pyReplace ntDouble ntSym (pyReplace ntBare ntSym p1)
    else p1
  else p

/-- The currency-format dispatch on an already-trimmed price text:
standardize `"US $"`/leading-`$` prices, convert known foreign
currencies, prepend `"US "` to a bare dollar amount, else leave as-is. -/
def usBranch (p : List Char) : List Char :=
  if isSub usdMark p || dollarStr.isPrefixOf p then
    match firstNumRun p with
    | none => p
    | some run =>
      match parsePyFloat (stripCommas run) with
      | some f => usdMark ++ tenthStr (pyRound1 f)
      | none => usdMark ++ run
  else if EXCHANGE_RATES.any (fun sr => isSub sr.1 p) then
    convert_to_usd p
  else if isSub dollarStr p && !isSub usdMark p then
    usStr ++ p
  else p

/-- Full price handling for one container: sentinel when the price
element is absent, otherwise strip, trim the range and per-unit parts,
normalize NT variants, and dispatch on the currency format. -/
def extractPrice (pe : Option (List Char)) : List Char :=
  match pe with
  | none => noPriceStr
  | some raw => usBranch (ntNormalize (unitTrim (rangeTrim (pyStrip raw))))

/-- Image extraction: `data-src`, else non-gif `src`, else the image
inside the picture wrapper, else the first `img` whose `src` is secure
and not a gif. -/
def imageOf (c : Container) : Option (List Char) :=
  let fromElem : Option (List Char) :=
    match c.image_elem with
    | some ie =>
      match ie.dataSrc with
      | some d => some d
      | none =>
        match ie.src with
        | some s => if !endsWith gifStr s then some s else none
        | none => none
    | none => none
  match fromElem with
  | some u => some u
  | none =>
    match c.picture_img_src with
    | some u => some u
    | none => c.imgs.find? (fun s => !endsWith gifStr s && isSub httpsStr s)

/-- Extraction of a single container: skip placeholders, then append the
record only when the product URL is truthy (`if product_url:` — present
and non-empty). -/
def parseItem (c : Container) : List Product :=
  if shopFilter c then []
  else
    match c.link_href with
    | some u =>
      if u.isEmpty then []
      else [⟨titleOf c, extractPrice c.price_elem, u, imageOf c⟩]
    | none => []

/-- Model of `EbayScraper.parse_product_listings` on the container list
of a page, mirroring the `for container in product_containers` loop.
The per-item `try/except` and the conversion status updates are elided:
no operation in the pure model raises, and no claim concerns the
extractor's own log lines. -/
def parse_product_listings : List Container → List Product
  | [] => []
  | c :: rest => parseItem c ++ parse_product_listings rest

/-! ## Pagination

Source: `EbayScraper.__init__` (the base-URL rewriting) and
`EbayScraper.get_next_page_url`. -/

/-- Query marker `"?"`. -/
def qMark : List Char := ("?").data

/-- Parameter separator `"&"`. -/
def ampStr : List Char := ("&").data

/-- Page-number parameter marker `"_pgn="`. -/
def pgnKey : List Char := ("_pgn=").data

/-- The currency-forcing parameters appended after an existing query
string: `"&_ccy=1&_fmt=US&_dmd=1"`. -/
def ccyAmpParams : List Char := ("&_ccy=1&_fmt=US&_dmd=1").data

/-- The currency-forcing parameters opening a query string:
`"?_ccy=1&_fmt=US&_dmd=1"`. -/
def ccyQParams : List Char := ("?_ccy=1&_fmt=US&_dmd=1").data

/-- The constructor's base-URL rewriting: append the currency-forcing
parameters with `&` when a query string exists, else with `?`. -/
def initBaseUrl (u : List Char) : List Char :=
  if isSub qMark u then u ++ ccyAmpParams else u ++ ccyQParams

/-- One fetched page, abstracted to what the scraper reads from it:
its containers, whether `.pagination__items` matched, and the `href` of
the `.pagination__next` control when that element exists and has one. -/
structure Page where
  containers : List Container
  paginationItems : Bool
  nextHref : Option (List Char)
deriving DecidableEq, Repr

/-- The DOM pagination strategy: an `href` is used only when
`.pagination__items` matched and `.pagination__next` has an `href`. -/
def nextControlHref (pg : Page) : Option (List Char) :=
  if pg.paginationItems then pg.nextHref else none

/-- Simplified stand-in for `urllib.parse.urljoin`: an absolute
reference is returned as-is, a relative one is appended to the base.
No claim under verification exercises this branch (all claims concern
the query-parameter fallback), so the model does not reproduce the full
RFC 3986 resolution algorithm. -/
def urljoinModel (base href : List Char) : List Char :=
  if isSub (("://").data) href then href else base ++ href

/-- Model of `EbayScraper.get_next_page_url`.  `html` is `none` when the
page content is falsy (the `if not html_content: return None` guard);
otherwise the DOM strategy is tried first, then the query-parameter
fallback on `self.base_url`. -/
def get_next_page_url (html : Option Page) (base_url : List Char)
    (current_page_number : Nat) : Option (List Char) :=
  match html with
  | none => none
  | some pg =>
    match nextControlHref pg with
    | some href => some (urljoinModel base_url href)
    | none =>
      if isSub qMark base_url then
        let base_part := (splitFirst qMark base_url).1
        let query_part := (splitFirst qMark base_url).2
        if isSub pgnKey query_part then
          some (base_part ++ qMark ++
            List.intercalate ampStr
              ((query_part.splitOn '&').map fun param =>
                if isSub pgnKey param then
                  pgnKey ++ natDigits (current_page_number + 1)
                else param))
        else
          some (base_url ++ ampStr ++ pgnKey ++ natDigits (current_page_number + 1))
      else none

/-! ## Fetcher and orchestration loop

Source: `EbayScraper.get_page` and `EbayScraper.scrape`.  A fetch oracle
`fetch : url → attempt → Option Page` abstracts `self.session.get`: it
yields a parsed page on success and `none` when the request raises (the
empty-response-text corner, where `response.text` is falsy, is folded
into the failure case — no claim distinguishes it).  Status-log entries
are the constructors of `Msg`, one per `add_status_update` call site;
the wall-clock timestamp prepended by `add_status_update` and the random
backoff/delay amounts interpolated into some messages are elided. -/

/-- One status-log entry, by call site. -/
inductive Msg where
  /-- The entry `"Starting scrape for: <base url>"`. -/
  | startingScrape (baseUrl : List Char)
  /-- The entry `"Maximum pages to scrape: <max pages or All>"`. -/
  | maxPagesInfo (maxPages : Option Nat)
  /-- The entry `"Scraping page <n>..."`. -/
  | scrapingPage (n : Nat)
  /-- The entry `"Error fetching <url>: <exception>"`. -/
  | errorFetching (url : List Char)
  /-- The entry `"Retrying in <wait> seconds..."`. -/
  | retryWait
  /-- The entry `"Max retries reached. Moving on."`. -/
  | giveUp
  /-- The entry `"Found <k> products on page <n>. Total: <total>"`. -/
  | foundProducts (count total page : Nat)
  /-- The entry `"No products found on page <n>. Stopping."`. -/
  | noProducts (page : Nat)
  /-- The entry `"Waiting <delay> seconds before next request..."`. -/
  | waitingDelay
  /-- The entry `"Reached maximum number of pages (<m>). Stopping."`. -/
  | reachedMaxPages (m : Nat)
  /-- The entry `"Failed to fetch page content. Stopping."`. -/
  | fetchFailedStop
  /-- The entry `"Scraping complete. Total products collected: <n>"`. -/
  | scrapeComplete (total : Nat)
deriving DecidableEq, Repr

/-- The retry loop of `get_page`: `for attempt in range(3)`.  `remaining`
counts the attempts still allowed (3 at entry); `attempt < max_retries-1`
is `remaining > 1`.  The result pairs the fetched page (or `none`) with
the status entries the call appends. -/
def getPageLoop (fetch : List Char → Nat → Option Page) (url : List Char) :
    Nat → Nat → Option Page × List Msg
  | _, 0 => (none, [])
  | attempt, remaining + 1 =>
    match fetch url attempt with
    | some pg => (some pg, [])
    | none =>
      if remaining > 0 then
        let r := getPageLoop fetch url (attempt + 1) remaining
        (r.1, Msg.errorFetching url :: Msg.retryWait :: r.2)
      else
        (none, [Msg.errorFetching url, Msg.giveUp])

/-- Model of `EbayScraper.get_page` (`max_retries = 3`). -/
def get_page (fetch : List Char → Nat → Option Page) (url : List Char) :
    Option Page × List Msg :=
  getPageLoop fetch url 0 3

/-- Why the scrape loop ended.  Each constructor corresponds to one exit
point of the `while` loop in `scrape`; `fuelOut` is an artifact of the
bounded model (the Python loop may run unboundedly when `max_pages` is
`None`) and is never reached when enough fuel is supplied. -/
inductive ExitReason where
  /-- The loop condition failed: `get_next_page_url` returned `None`. -/
  | noNextUrl
  /-- The `break` after `"No products found on page ..."`. -/
  | noProducts
  /-- The `break` after `"Failed to fetch page content. Stopping."`. -/
  | fetchFailed
  /-- The `break` after `"Reached maximum number of pages ..."`. -/
  | maxPagesReached
  /-- Fuel exhausted (model artifact only). -/
  | fuelOut
deriving DecidableEq, Repr

/-- The spec's terminal states for a scrape job. -/
inductive Terminal where
  | Completed
  | Failed
  | Stopped
deriving DecidableEq, Repr

/-- The spec's classification of a loop exit as a terminal state:
running out of pages, products or page budget is normal completion;
exhausting fetch retries is failure.  (`Stopped` arises only from the
external cancellation flag, which no external actor flips in this
single-job model; `fuelOut` is the model artifact and maps to `none`.) -/
def termStateOf : ExitReason → Option Terminal
  | ExitReason.noNextUrl => some Terminal.Completed
  | ExitReason.noProducts => some Terminal.Completed
  | ExitReason.maxPagesReached => some Terminal.Completed
  | ExitReason.fetchFailed => some Terminal.Failed
  | ExitReason.fuelOut => none

/-- Result of a scrape run: accumulated products, the status log, and
the loop's exit reason. -/
structure RunResult where
  products : List Product
  log : List Msg
  reason : ExitReason
deriving DecidableEq, Repr

/-- Python truthiness of `max_pages` in `if max_pages and page_number >=
max_pages`. -/
def maxPagesTruthy : Option Nat → Bool
  | none => false
  | some m => decide (0 < m)

/-- The `while current_url and self.is_running` loop of `scrape`.  The
external stop flag is never flipped in this model, so the loop condition
reduces to `current_url` being present; `fuel` bounds the iterations of
the model only. -/
def scrapeLoop (fetch : List Char → Nat → Option Page) (base_url : List Char)
    (max_pages : Option Nat) :
    Nat → Option (List Char) → Nat → List Product → List Msg → RunResult
  | 0, _, _, prods, log => ⟨prods, log, ExitReason.fuelOut⟩
  | _ + 1, none, _, prods, log => ⟨prods, log, ExitReason.noNextUrl⟩
  | fuel + 1, some url, page_number, prods, log =>
    let log1 := log ++ [Msg.scrapingPage page_number]
    let fetched := get_page fetch url
    let log2 := log1 ++ fetched.2
    match fetched.1 with
    | none => ⟨prods, log2 ++ [Msg.fetchFailedStop], ExitReason.fetchFailed⟩
    | some pg =>
      let page_products := parse_product_listings pg.containers
      if page_products.isEmpty then
        ⟨prods, log2 ++ [Msg.noProducts page_number], ExitReason.noProducts⟩
      else
        let prods2 := prods ++ page_products
        let log3 := log2 ++
          [Msg.foundProducts page_products.length prods2.length page_number,
           Msg.waitingDelay]
        if maxPagesTruthy max_pages &&
            decide (max_pages.getD 0 ≤ page_number) then
          ⟨prods2, log3 ++ [Msg.reachedMaxPages (max_pages.getD 0)],
            ExitReason.maxPagesReached⟩
        else
          scrapeLoop fetch base_url max_pages fuel
            (get_next_page_url (some pg) base_url page_number)
            (page_number + 1) prods2 log3

/-- Model of `EbayScraper.scrape`: reset state, log the two opening
entries, run the loop from page 1 at the (already rewritten) base URL,
and append the closing `"Scraping complete..."` entry. -/
def scrape (fetch : List Char → Nat → Option Page) (base_url : List Char)
    (max_pages : Option Nat) (fuel : Nat) : RunResult :=
  let r := scrapeLoop fetch base_url max_pages fuel (some base_url) 1 []
    [Msg.startingScrape base_url, Msg.maxPagesInfo max_pages]
  ⟨r.products, r.log ++ [Msg.scrapeComplete r.products.length], r.reason⟩

/-! ## Helper lemmas for the claims -/

theorem firstRate_isSome_of_any {rs : List (List Char × ℚ)} {p : List Char}
    (h : rs.any (fun sr => isSub sr.1 p) = true) :
    ∃ r, firstRate rs p = some r := by
  induction rs with
  | nil => simp at h
  | cons sr rest ih =>
    obtain ⟨sym, rate⟩ := sr
    by_cases hs : isSub sym p
    · exact ⟨rate, by simp [firstRate, hs]⟩
    · simp only [List.any_cons, Bool.or_eq_true, hs] at h
      simpa [firstRate, hs] using ih (by simpa using h)

/-- Decomposition of the canonical output into its frame, integer part,
period and single fractional digit. -/
theorem usdOfTenths_split (t : ℤ) :
    usdOfTenths t =
      usdMark ++ ((if t < 0 then ['-'] else []) ++ natDigits (t.natAbs / 10)) ++
        ['.', digitChar (t.natAbs % 10)] := by
  unfold usdOfTenths tenthStr
  simp [List.append_assoc]

/-- The period does not occur before the decimal point of the canonical
output. -/
theorem dot_not_mem_intPart (t : ℤ) :
    ('.') ∉ ((if t < 0 then ['-'] else []) ++ natDigits (t.natAbs / 10)) := by
  intro h
  rcases List.mem_append.mp h with h | h
  · split_ifs at h
    · rcases List.mem_singleton.mp h with h
      exact absurd h (by decide)
    · simp at h
  · have := natDigits_digits h
    exact absurd this (by decide)

/-- The conversion loop ignores the pound/euro special case: both of its
branches compute the same expression. -/
theorem convertGo_eq_uniform (rs : List (List Char × ℚ)) (p : List Char) :
    convertGo rs p = convertGoUniform rs p := by
  induction rs with
  | nil => rfl
  | cons sr rest ih =>
    obtain ⟨sym, rate⟩ := sr
    by_cases hs : isSub sym p
    · cases ha : parseAmount p with
      | none => simpa [convertGo, convertGoUniform, hs, ha] using ih
      | some a => simp [convertGo, convertGoUniform, hs, ha, ite_self]
    · simpa [convertGo, convertGoUniform, hs] using ih

/-! ## Claim C10 -/

/-- C10: in `convert_to_usd`, the special-case branch for the pound and
euro symbols computes exactly the same expression (`round(amount / rate,
1)`) as the general branch for all other symbols, so `convert_to_usd` is
extensionally equal to a version with a single uniform division for
every matched symbol. -/
theorem claim10_uniform_division (p : List Char) :
    convert_to_usd p = convert_to_usd_uniform p :=
  convertGo_eq_uniform EXCHANGE_RATES p

/-! ## Claim C8 -/

/-- C8: `convert_to_usd` is idempotent: for every input price text,
applying it to its own output returns that output unchanged
(already-canonical `"US $..."` text contains no table symbol and is
returned as-is). -/
theorem claim8_idempotent (p : List Char) :
    convert_to_usd (convert_to_usd p) = convert_to_usd p := by
  unfold convert_to_usd
  rcases convertGo_cases EXCHANGE_RATES p with h | ⟨t, h⟩
  · rw [h, h]
  · rw [h]
    exact convertGo_of_no_sym fun sr hsr => no_sym_in_usdOfTenths sr hsr t

/-! ## Claim C2 -/

/-- C2 (amended): for every price text in which `convert_to_usd` finds a
known currency symbol and a parseable numeric run, the converted amount
is rounded HALF-TO-EVEN (not half-up) to one decimal place: the output
is the formatted tenths value `t` with `|10·(a/r) − t| ≤ 1/2` and, at an
exact tie, `t` even.  And for every price text whose numeric portion is
malformed (fails to parse), `convert_to_usd` returns the input text
unchanged rather than raising. -/
theorem claim2_half_even_and_malformed :
    (∀ (p : List Char) (a r : ℚ), parseAmount p = some a →
      firstRate EXCHANGE_RATES p = some r →
      convert_to_usd p = usdOfTenths (pyRound1 (a / r)) ∧
      |10 * (a / r) - (pyRound1 (a / r) : ℚ)| ≤ 1 / 2 ∧
      (|10 * (a / r) - (pyRound1 (a / r) : ℚ)| = 1 / 2 →
        pyRound1 (a / r) % 2 = 0)) ∧
    (∀ p : List Char, parseAmount p = none → convert_to_usd p = p) := by
  constructor
  · intro p a r ha hr
    refine ⟨?_, ?_, ?_⟩
    · unfold convert_to_usd
      rw [convertGo_of_amount ha, hr]
    · simpa [pyRound1] using rhe_dist (10 * (a / r))
    · intro htie
      exact rhe_even_of_tie (10 * (a / r)) (by simpa [pyRound1] using htie)
  · intro p ha
    exact convertGo_of_no_amount ha

/-- Witness for C2 at the spec's own scenario `"NT$1,200"`: the symbol
`NT$` matches, the run `1,200` parses to 1200, and the output is
`"US $36.5"` (1200 / 32.906 = 36.467…, rounded to 36.5). -/
theorem claim2_witness :
    parseAmount (("NT$1,200").data) = some ((1200 : Nat) : ℚ) ∧
    firstRate EXCHANGE_RATES (("NT$1,200").data) = some (32906 / 1000) ∧
    convert_to_usd (("NT$1,200").data) = (("US $36.5").data) := by
  have h1 : parseAmount (("NT$1,200").data) =
      some ((natOfDigits (("1200").data) : ℚ)) := rfl
  rw [show natOfDigits (("1200").data) = 1200 from by decide] at h1
  have h2 : firstRate EXCHANGE_RATES (("NT$1,200").data) =
      some (32906 / 1000) := rfl
  refine ⟨h1, h2, ?_⟩
  have h3 := (claim2_half_even_and_malformed.1 (("NT$1,200").data)
    ((1200 : Nat) : ℚ) (32906 / 1000) h1 h2).1
  rw [h3]
  have hfl : ⌊(10 * (((1200 : Nat) : ℚ) / (32906 / 1000)))⌋ = 364 := by
    rw [Int.floor_eq_iff]
    norm_num
  have h4 : pyRound1 (((1200 : Nat) : ℚ) / (32906 / 1000)) = 365 := by
    simp only [pyRound1, rhe, ratFloor_eq_floor, hfl]
    norm_num
  rw [h4]
  decide

/-- Half-up rounding to one decimal place, as the claim's words
prescribe ("rounded half-up to one decimal place"), returned as tenths. -/
def specHalfUpTenths (x : ℚ) : ℤ := ⌊10 * x + 1 / 2⌋

/-- Counterexample to C2 as stated: for `"A$0.375"` the exact quotient
is 0.375 / 1.5 = 0.25, an exact tie at one decimal (and one that the
running Python program also hits exactly, since 0.375, 1.5 and 0.25 are
all dyadic and exactly representable as binary floats).  The code's
`round` gives 0.2 (ties to even), while half-up rounding would give 0.3:
the output is `"US $0.2"`, not the half-up `"US $0.3"`. -/
theorem claim2_counterexample :
    convert_to_usd (("A$0.375").data) = (("US $0.2").data) ∧
    usdOfTenths (specHalfUpTenths ((375 / 1000 : ℚ) / (15 / 10))) =
      (("US $0.3").data) ∧
    (("US $0.2").data) ≠ (("US $0.3").data) := by
  have h1 : parseAmount (("A$0.375").data) =
      some ((natOfDigits (("0").data) : ℚ) +
        (natOfDigits (("375").data) : ℚ) / (10 : ℚ) ^ (("375").data).length) := rfl
  rw [show natOfDigits (("0").data) = 0 from by decide,
    show natOfDigits (("375").data) = 375 from by decide,
    show (("375").data).length = 3 from by decide] at h1
  rw [show (((0 : Nat) : ℚ) + ((375 : Nat) : ℚ) / (10 : ℚ) ^ (3 : Nat)) = 3 / 8
    from by norm_num] at h1
  have h2 : firstRate EXCHANGE_RATES (("A$0.375").data) = some (15 / 10) := rfl
  refine ⟨?_, ?_, by decide⟩
  · unfold convert_to_usd
    rw [convertGo_of_amount h1, h2]
    show usdOfTenths (pyRound1 ((3 / 8 : ℚ) / (15 / 10))) = (("US $0.2").data)
    have hfl : ⌊(10 * ((3 / 8 : ℚ) / (15 / 10)))⌋ = 2 := by
      rw [Int.floor_eq_iff]
      norm_num
    have h4 : pyRound1 ((3 / 8 : ℚ) / (15 / 10)) = 2 := by
      simp only [pyRound1, rhe, ratFloor_eq_floor, hfl]
      norm_num
    rw [h4]
    decide
  · rw [show specHalfUpTenths ((375 / 1000 : ℚ) / (15 / 10)) = 3 from ?_]
    · decide
    · unfold specHalfUpTenths
      rw [show (10 * ((375 / 1000 : ℚ) / (15 / 10)) + 1 / 2) = (3 : ℚ) from by
        norm_num]
      exact_mod_cast Int.floor_intCast 3

/-! ## Claim C4 -/

/-- C4 (amended): for every price text containing a known non-canonical
currency symbol whose first numeric run parses successfully, the output
of `convert_to_usd` begins with the canonical `"US $"` and contains a
numeric value rounded to exactly one decimal place (a single digit after
the only period following the frame).  (Amended: when the numeric run is
absent or malformed the loop falls through and returns the input
unchanged, so the original unconditional claim fails.) -/
theorem claim4_canonical_form (p : List Char) (a : ℚ)
    (hsym : EXCHANGE_RATES.any (fun sr => isSub sr.1 p) = true)
    (hamt : parseAmount p = some a) :
    usdMark.isPrefixOf (convert_to_usd p) = true ∧
    ∃ s d, convert_to_usd p = usdMark ++ s ++ ['.', d] ∧ d.isDigit = true ∧
      ('.') ∉ s := by
  obtain ⟨r, hr⟩ := firstRate_isSome_of_any hsym
  have hc : convert_to_usd p = usdOfTenths (pyRound1 (a / r)) := by
    unfold convert_to_usd
    rw [convertGo_of_amount hamt, hr]
  rw [hc, usdOfTenths_split]
  constructor
  · rw [← List.append_assoc]
    exact isPrefixOf_extend _ (isPrefixOf_append usdMark _)
  · exact ⟨_, _, rfl, digitChar_isDigit _, dot_not_mem_intPart _⟩

/-- Witness for C4 at `"NT$1,200"`. -/
theorem claim4_witness :
    EXCHANGE_RATES.any (fun sr => isSub sr.1 (("NT$1,200").data)) = true ∧
    parseAmount (("NT$1,200").data) = some ((1200 : Nat) : ℚ) ∧
    usdMark.isPrefixOf (convert_to_usd (("NT$1,200").data)) = true := by
  have h1 : parseAmount (("NT$1,200").data) =
      some ((natOfDigits (("1200").data) : ℚ)) := rfl
  rw [show natOfDigits (("1200").data) = 1200 from by decide] at h1
  refine ⟨by decide, h1, ?_⟩
  exact (claim4_canonical_form (("NT$1,200").data) ((1200 : Nat) : ℚ)
    (by decide) h1).1

/-- Counterexample to C4 as stated: `"NT$"` contains the table key `NT$`
but has no numeric run at all, so the conversion falls through and the
output does not begin with `"US $"`. -/
theorem claim4_counterexample :
    EXCHANGE_RATES.any (fun sr => isSub sr.1 (("NT$").data)) = true ∧
    convert_to_usd (("NT$").data) = (("NT$").data) ∧
    usdMark.isPrefixOf (convert_to_usd (("NT$").data)) = false := by
  have ha : parseAmount (("NT$").data) = none := rfl
  have h2 : convert_to_usd (("NT$").data) = (("NT$").data) :=
    convertGo_of_no_amount ha
  refine ⟨by decide, h2, ?_⟩
  rw [h2]
  decide

/-! ## Claim C1 -/

/-- Evaluation of the extractor's price handling on the spec's scenario
text `"$10 to $20"`: the range is trimmed to `"$10"`, the leading-dollar
branch re-parses `10` and reformats it to one-decimal notation, giving
`"US $10.0"`. -/
theorem extractPrice_range_scenario :
    extractPrice (some (("$10 to $20").data)) = (("US $10.0").data) := by
  have hpipe : ntNormalize (unitTrim (rangeTrim (pyStrip (("$10 to $20").data)))) =
      (("$10").data) := by decide
  show usBranch (ntNormalize (unitTrim (rangeTrim (pyStrip (("$10 to $20").data))))) =
    (("US $10.0").data)
  rw [hpipe]
  have husb : usBranch (("$10").data) =
      usdMark ++ tenthStr (pyRound1 ((natOfDigits (("10").data) : ℚ))) := rfl
  rw [husb, show natOfDigits (("10").data) = 10 from by decide]
  have hfl : ⌊(10 * (((10 : Nat) : ℚ)))⌋ = 100 := by
    rw [Int.floor_eq_iff]
    norm_num
  have ht : pyRound1 (((10 : Nat) : ℚ)) = 100 := by
    simp only [pyRound1, rhe, ratFloor_eq_floor, hfl]
    norm_num
  rw [ht]
  decide

/-- C1 (amended): for the price text `"$10 to $20"` taken through the
extractor's price handling, the range is trimmed to `"$10"` before
currency handling, and — because the leading-dollar branch re-parses the
number and reformats it to one-decimal canonical notation — the final
price string is exactly `"US $10.0"` (not `"US $10"`). -/
theorem claim1_range_scenario :
    rangeTrim (pyStrip (("$10 to $20").data)) = (("$10").data) ∧
    extractPrice (some (("$10 to $20").data)) = (("US $10.0").data) :=
  ⟨by decide, extractPrice_range_scenario⟩

/-- Counterexample to C1 as stated: the final string is `"US $10.0"`,
which differs from the claimed `"US $10"` (the code's own one-decimal
reformatting contradicts the bare `"US $10"` of the scenario). -/
theorem claim1_counterexample :
    extractPrice (some (("$10 to $20").data)) = (("US $10.0").data) ∧
    (("US $10.0").data) ≠ (("US $10").data) :=
  ⟨extractPrice_range_scenario, by decide⟩

/-! ## Claim C7 -/

/-- C7 (amended): the extractor processes containers independently and
in order; a container yields a record iff its URL is present and truthy
(non-empty) and its title does not contain the placeholder
`"Shop on eBay"`; items missing only title, price, or image are still
included, with title defaulting to `"No Title"`, price to `"No Price"`,
and image to absent. -/
theorem claim7_url_required (c : Container) (cs : List Container) :
    (parse_product_listings (c :: cs) =
      parseItem c ++ parse_product_listings cs) ∧
    ((parseItem c).isEmpty = false ↔
      (∃ u, c.link_href = some u ∧ u ≠ []) ∧ shopFilter c = false) ∧
    (∀ u, c.link_href = some u → u ≠ [] → shopFilter c = false →
      parseItem c = [⟨titleOf c, extractPrice c.price_elem, u, imageOf c⟩]) ∧
    (c.title_elem = none → titleOf c = noTitleStr) ∧
    (c.price_elem = none → extractPrice c.price_elem = noPriceStr) ∧
    (c.image_elem = none → c.picture_img_src = none → c.imgs = [] →
      imageOf c = none) := by
  refine ⟨rfl, ?_, ?_, ?_, ?_, ?_⟩
  · unfold parseItem
    by_cases hs : shopFilter c
    · simp only [hs, if_true]
      simp [hs]
    · simp only [hs, Bool.false_eq_true, if_false]
      cases hu : c.link_href with
      | none => simp [hs]
      | some u =>
        by_cases he : u.isEmpty
        · have : u = [] := List.isEmpty_iff.mp he
          subst this
          simp [he, hs]
        · have hne : u ≠ [] := fun h => he (by simp [h])
          simp [he, hs, hne]
  · intro u hu hne hs
    unfold parseItem
    rw [hs, hu]
    simp only [Bool.false_eq_true, if_false]
    rw [if_neg (by simpa [List.isEmpty_iff] using hne)]
  · intro h
    unfold titleOf
    rw [h]
  · intro h
    unfold extractPrice
    rw [h]
  · intro h1 h2 h3
    unfold imageOf
    rw [h1, h2, h3]
    rfl

/-- Witness for C7: a container with only a URL yields exactly the
sentinel record. -/
theorem claim7_witness :
    parse_product_listings
        [⟨none, none, some (("http://u").data), none, none, []⟩] =
      [⟨noTitleStr, noPriceStr, (("http://u").data), none⟩] := by
  have h := claim7_url_required
    ⟨none, none, some (("http://u").data), none, none, []⟩ []
  rw [h.1, h.2.2.1 (("http://u").data) rfl (by decide) rfl]
  rw [h.2.2.2.1 rfl, h.2.2.2.2.1 rfl, h.2.2.2.2.2 rfl rfl rfl]
  rfl

/-- Counterexample to C7 as stated: a container whose URL is present but
whose title contains the placeholder `"Shop on eBay"` is excluded, so
"included iff URL present" fails in the left-to-right direction. -/
theorem claim7_counterexample :
    (⟨some shopStr, none, some (("http://x").data), none, none, []⟩ :
        Container).link_href = some (("http://x").data) ∧
    (("http://x").data) ≠ [] ∧
    parse_product_listings
        [⟨some shopStr, none, some (("http://x").data), none, none, []⟩] = [] := by
  refine ⟨rfl, by decide, ?_⟩
  decide

/-! ## Claims C3 and C9 -/

/-- A page with no containers and no pagination control. -/
def plainPage : Page := ⟨[], false, none⟩

theorem isSub_qmark (bp q : List Char) : isSub qMark (bp ++ '?' :: q) = true :=
  isSub_append_right bp (isSub_of_isPrefixOf (by simp [qMark, List.isPrefixOf]))

theorem splitFirst_qmark (bp q : List Char) (hbp : ('?') ∉ bp) :
    splitFirst qMark (bp ++ '?' :: q) = (bp, q) := by
  induction bp with
  | nil =>
    show splitFirst qMark ('?' :: q) = ([], q)
    simp [splitFirst, List.isPrefixOf, qMark]
  | cons c bp ih =>
    have hc : ('?') ≠ c := fun h => hbp (by simp [h.symm])
    have hbp2 : ('?') ∉ bp := fun h => hbp (List.mem_cons_of_mem _ h)
    show splitFirst qMark (c :: (bp ++ '?' :: q)) = (c :: bp, q)
    rw [splitFirst]
    rw [if_neg (by simp [qMark, List.isPrefixOf, hc])]
    simp [ih hbp2]

/-- A needle occurring in one chunk occurs in the intercalation. -/
theorem elem_sub_intercalate {key m sep : List Char} {ls : List (List Char)}
    (hm : m ∈ ls) (hs : isSub key m = true) :
    isSub key (List.intercalate sep ls) = true := by
  induction ls with
  | nil => simp at hm
  | cons a rest ih =>
    rcases List.mem_cons.mp hm with rfl | hm
    · cases rest with
      | nil =>
        rw [show List.intercalate sep [m] = m from by simp [List.intercalate]]
        exact hs
      | cons b l =>
        rw [show List.intercalate sep (m :: b :: l) =
            m ++ sep ++ List.intercalate sep (b :: l) from by
          simp [List.intercalate]]
        exact isSub_append_left _ (isSub_append_left _ hs)
    · cases rest with
      | nil => simp at hm
      | cons b l =>
        rw [show List.intercalate sep (a :: b :: l) =
            a ++ sep ++ List.intercalate sep (b :: l) from by
          simp [List.intercalate]]
        rw [List.append_assoc]
        exact isSub_append_right _ (isSub_append_right _ (ih hm))

/-- C3 (amended): for every base URL of the form `<base>?<query>` whose
query string contains `_pgn=`, when no DOM pagination control is found
`get_next_page_url` returns the base URL with every `_pgn=`-containing
parameter replaced by `_pgn=<current page + 1>` — the parameter is set
from the CURRENT PAGE NUMBER argument, not obtained by incrementing the
parameter's own value — while every other query parameter keeps its
value and position; in particular, on `".../i.html?_pgn=2&_sop=12"` with
current page 2 (where the two notions coincide) the result is
`".../i.html?_pgn=3&_sop=12"`. -/
theorem claim3_next_url (bp q : List Char) (n : Nat) (pg : Page)
    (hbp : ('?') ∉ bp) (hq : isSub pgnKey q = true)
    (hpg : nextControlHref pg = none) :
    get_next_page_url (some pg) (bp ++ '?' :: q) n =
      some (bp ++ '?' :: List.intercalate ampStr
        ((q.splitOn '&').map fun param =>
          if isSub pgnKey param then pgnKey ++ natDigits (n + 1) else param)) ∧
    ∀ i (h : i < (q.splitOn '&').length),
      isSub pgnKey ((q.splitOn '&').get ⟨i, h⟩) = false →
      (((q.splitOn '&').map fun param =>
          if isSub pgnKey param then pgnKey ++ natDigits (n + 1) else param).get
        ⟨i, by simpa using h⟩) = (q.splitOn '&').get ⟨i, h⟩ := by
  constructor
  · simp only [get_next_page_url]
    rw [hpg]
    have h1 : isSub qMark (bp ++ '?' :: q) = true := isSub_qmark bp q
    have h2 : splitFirst qMark (bp ++ '?' :: q) = (bp, q) :=
      splitFirst_qmark bp q hbp
    simp only [h1, h2, hq, if_true, if_pos]
    rw [List.append_assoc]
    rfl
  · intro i h hfalse
    simp only [List.get_eq_getElem] at hfalse
    simp only [List.get_eq_getElem, List.getElem_map, hfalse]
    simp

/-- Witness for C3 at the spec's own example, where the current page
number equals the existing parameter value. -/
theorem claim3_witness :
    (('?') ∉ (("https://www.ebay.com/sch/i.html").data)) ∧
    isSub pgnKey (("_pgn=2&_sop=12").data) = true ∧
    get_next_page_url (some plainPage)
        (("https://www.ebay.com/sch/i.html?_pgn=2&_sop=12").data) 2 =
      some (("https://www.ebay.com/sch/i.html?_pgn=3&_sop=12").data) := by
  refine ⟨by decide, by decide, ?_⟩
  rw [show (("https://www.ebay.com/sch/i.html?_pgn=2&_sop=12").data) =
      (("https://www.ebay.com/sch/i.html").data) ++ '?' ::
        (("_pgn=2&_sop=12").data) from by decide]
  rw [(claim3_next_url (("https://www.ebay.com/sch/i.html").data)
    (("_pgn=2&_sop=12").data) 2 plainPage (by decide) (by decide) rfl).1]
  decide

/-- The behaviour C3 asserts, written from the claim's words: the
existing page-number parameter's VALUE is incremented by one, all other
parameters keeping value and order. -/
def specPgnValueIncrement (base : List Char) : List Char :=
  if isSub qMark base then
    (splitFirst qMark base).1 ++ '?' :: List.intercalate ampStr
      (((splitFirst qMark base).2.splitOn '&').map fun param =>
        if pgnKey.isPrefixOf param then
          pgnKey ++ natDigits (natOfDigits (param.drop pgnKey.length) + 1)
        else param)
  else base

/-- Counterexample to C3 as stated: with base URL
`".../i.html?_pgn=7&_sop=12"` and current page 2, the code returns
`_pgn=3` (current page + 1), while incrementing the parameter's value
would give `_pgn=8`. -/
theorem claim3_counterexample :
    get_next_page_url (some plainPage)
        (("https://e/i.html?_pgn=7&_sop=12").data) 2 =
      some (("https://e/i.html?_pgn=3&_sop=12").data) ∧
    specPgnValueIncrement (("https://e/i.html?_pgn=7&_sop=12").data) =
      (("https://e/i.html?_pgn=8&_sop=12").data) ∧
    some (("https://e/i.html?_pgn=3&_sop=12").data) ≠
      some (("https://e/i.html?_pgn=8&_sop=12").data) := by
  refine ⟨by decide, by decide, by decide⟩

/-- C9: the constructor appends the currency-forcing query parameters to
the supplied base URL, so `base_url` always contains a query string;
consequently `get_next_page_url` never takes the no-query-string branch
and, when the page content is present but no DOM pagination control is
found, always returns a URL carrying a `_pgn` parameter rather than
none. -/
theorem claim9_always_pgn (u : List Char) (n : Nat) (pg : Page)
    (hpg : nextControlHref pg = none) :
    isSub qMark (initBaseUrl u) = true ∧
    ∃ r, get_next_page_url (some pg) (initBaseUrl u) n = some r ∧
      isSub pgnKey r = true := by
  have hq : isSub qMark (initBaseUrl u) = true := by
    unfold initBaseUrl
    by_cases h : isSub qMark u
    · rw [if_pos h]
      exact isSub_append_left _ h
    · rw [if_neg h]
      exact isSub_append_right _ (by decide)
  refine ⟨hq, ?_⟩
  simp only [get_next_page_url]
  rw [hpg]
  rw [if_pos hq]
  by_cases hk : isSub pgnKey (splitFirst qMark (initBaseUrl u)).2
  · rw [if_pos hk]
    refine ⟨_, rfl, ?_⟩
    set ls := (splitFirst qMark (initBaseUrl u)).2.splitOn '&' with hls
    by_cases hex : ∃ prm ∈ ls, isSub pgnKey prm = true
    · obtain ⟨prm, hmem, hsub⟩ := hex
      have hmem2 : (pgnKey ++ natDigits (n + 1)) ∈
          ls.map (fun param => if isSub pgnKey param then
            pgnKey ++ natDigits (n + 1) else param) := by
        have := List.mem_map_of_mem
          (fun param => if isSub pgnKey param then
            pgnKey ++ natDigits (n + 1) else param) hmem
        simpa [hsub] using this
      have hkey : isSub pgnKey (pgnKey ++ natDigits (n + 1)) = true :=
        isSub_of_isPrefixOf (isPrefixOf_append _ _)
      exact isSub_append_right _ (elem_sub_intercalate hmem2 hkey)
    · push_neg at hex
      have hfix : ∀ x ∈ ls, (fun param => if isSub pgnKey param then
          pgnKey ++ natDigits (n + 1) else param) x = id x := by
        intro x hx
        have := hex x hx
        simp only [Bool.not_eq_true] at this
        simp [this]
      have hmapid : ls.map (fun param => if isSub pgnKey param then
          pgnKey ++ natDigits (n + 1) else param) = ls := by
        rw [List.map_congr_left hfix, List.map_id]
      rw [hmapid, hls]
      have hjoin : ampStr.intercalate
          ((splitFirst qMark (initBaseUrl u)).2.splitOn '&') =
          (splitFirst qMark (initBaseUrl u)).2 :=
        List.intercalate_splitOn (splitFirst qMark (initBaseUrl u)).2 '&'
      rw [hjoin]
      exact isSub_append_right _ hk
  · rw [if_neg hk]
    refine ⟨_, rfl, ?_⟩
    rw [List.append_assoc]
    exact isSub_append_right _
      (isSub_of_isPrefixOf (isPrefixOf_append _ _))

/-- Witness for C9 on a search URL already carrying a query string. -/
theorem claim9_witness :
    nextControlHref plainPage = none ∧
    isSub qMark
      (initBaseUrl (("https://www.ebay.com/sch/i.html?_nkw=x").data)) = true ∧
    ∃ r, get_next_page_url (some plainPage)
        (initBaseUrl (("https://www.ebay.com/sch/i.html?_nkw=x").data)) 1 =
      some r ∧ isSub pgnKey r = true :=
  ⟨rfl,
   (claim9_always_pgn (("https://www.ebay.com/sch/i.html?_nkw=x").data) 1
     plainPage rfl).1,
   (claim9_always_pgn (("https://www.ebay.com/sch/i.html?_nkw=x").data) 1
     plainPage rfl).2⟩

/-! ## Claims C5 and C6 -/

/-- C5 (amended): when fetching a URL fails on 3 consecutive attempts,
`get_page` returns a failure (`none`) rather than raising, and the
status log gains exactly SIX entries for that fetch — one error entry
per attempt (3), one retry-wait entry after each non-final attempt (2),
and one give-up entry — not "3 retry entries plus one give-up entry"
(4); the scrape loop then logs the fetch-failure message, stops with the
accumulated products unchanged, and the exit maps to the `Failed`
terminal state. -/
theorem claim5_retry_exhaustion (fetch : List Char → Nat → Option Page)
    (url : List Char) (h : ∀ a, a < 3 → fetch url a = none)
    (base_url : List Char) (max_pages : Option Nat) (fuel n : Nat)
    (prods : List Product) (log : List Msg) :
    get_page fetch url =
      (none, [Msg.errorFetching url, Msg.retryWait, Msg.errorFetching url,
        Msg.retryWait, Msg.errorFetching url, Msg.giveUp]) ∧
    (scrapeLoop fetch base_url max_pages (fuel + 1) (some url) n prods
        log).reason = ExitReason.fetchFailed ∧
    (scrapeLoop fetch base_url max_pages (fuel + 1) (some url) n prods
        log).products = prods ∧
    (scrapeLoop fetch base_url max_pages (fuel + 1) (some url) n prods
        log).log =
      log ++ [Msg.scrapingPage n] ++
        [Msg.errorFetching url, Msg.retryWait, Msg.errorFetching url,
          Msg.retryWait, Msg.errorFetching url, Msg.giveUp] ++
        [Msg.fetchFailedStop] ∧
    termStateOf ExitReason.fetchFailed = some Terminal.Failed := by
  have hgp : get_page fetch url =
      (none, [Msg.errorFetching url, Msg.retryWait, Msg.errorFetching url,
        Msg.retryWait, Msg.errorFetching url, Msg.giveUp]) := by
    unfold get_page
    rw [getPageLoop, h 0 (by omega)]
    rw [getPageLoop, h 1 (by omega)]
    rw [getPageLoop, h 2 (by omega)]
    simp
  refine ⟨hgp, ?_, ?_, ?_, rfl⟩ <;>
    simp [scrapeLoop, hgp]

/-- Witness for C5 with a fetch oracle that always fails. -/
theorem claim5_witness :
    get_page (fun _ _ => none) (("u").data) =
      (none, [Msg.errorFetching (("u").data), Msg.retryWait,
        Msg.errorFetching (("u").data), Msg.retryWait,
        Msg.errorFetching (("u").data), Msg.giveUp]) ∧
    (scrapeLoop (fun _ _ => none) (("b").data) none 1
        (some (("u").data)) 1 [] []).reason = ExitReason.fetchFailed ∧
    termStateOf ExitReason.fetchFailed = some Terminal.Failed := by
  have h := claim5_retry_exhaustion (fun _ _ => none) (("u").data)
    (fun a _ => rfl) (("b").data) none 0 1 [] []
  exact ⟨h.1, h.2.1, h.2.2.2.2⟩

/-- Counterexample to C5 as stated: the fetch's log delta has 6 entries,
not the claimed 3-plus-1. -/
theorem claim5_counterexample :
    ((get_page (fun _ _ => none) (("u").data)).2).length = 6 ∧
    ((get_page (fun _ _ => none) (("u").data)).2).length ≠ 3 + 1 := by
  refine ⟨?_, ?_⟩ <;> decide

/-- C6: when a successfully fetched page yields zero extracted items,
the loop stops with the no-products exit (mapping to the `Completed`
terminal state, a normal termination), the status log contains the
"no products" message for that page, and the products accumulated from
prior pages are preserved unchanged. -/
theorem claim6_zero_items (fetch : List Char → Nat → Option Page)
    (base_url : List Char) (max_pages : Option Nat) (fuel : Nat)
    (url : List Char) (n : Nat) (prods : List Product) (log : List Msg)
    (page : Page) (glog : List Msg)
    (hf : get_page fetch url = (some page, glog))
    (hp : parse_product_listings page.containers = []) :
    (scrapeLoop fetch base_url max_pages (fuel + 1) (some url) n prods
        log).reason = ExitReason.noProducts ∧
    termStateOf ExitReason.noProducts = some Terminal.Completed ∧
    (scrapeLoop fetch base_url max_pages (fuel + 1) (some url) n prods
        log).products = prods ∧
    Msg.noProducts n ∈
      (scrapeLoop fetch base_url max_pages (fuel + 1) (some url) n prods
        log).log := by
  refine ⟨?_, rfl, ?_, ?_⟩ <;> simp [scrapeLoop, hf, hp]

/-- Witness for C6 with a fetch oracle returning a page with no
containers. -/
theorem claim6_witness :
    get_page (fun _ _ => some plainPage) (("u").data) = (some plainPage, []) ∧
    parse_product_listings plainPage.containers = [] ∧
    (scrapeLoop (fun _ _ => some plainPage) (("b").data) none 1
        (some (("u").data)) 1 [] []).reason = ExitReason.noProducts ∧
    (scrapeLoop (fun _ _ => some plainPage) (("b").data) none 1
        (some (("u").data)) 1 [] []).products = [] ∧
    Msg.noProducts 1 ∈
      (scrapeLoop (fun _ _ => some plainPage) (("b").data) none 1
        (some (("u").data)) 1 [] []).log := by
  have h := claim6_zero_items (fun _ _ => some plainPage) (("b").data) none 0
    (("u").data) 1 [] [] plainPage [] rfl rfl
  exact ⟨rfl, rfl, h.1, h.2.2.1, h.2.2.2⟩
